import Mathlib

/-
  Verification development for the record-store / logger module
  (src/terminalTools.py).  The Python code is shallowly embedded:
  file contents are Lean strings, every operation is a pure state
  transformer, fallible operations return Except, and console /
  diagnostic output is returned explicitly as lists of strings.
-/

namespace TerminalTools

/-- Python str.lower is a collaborator primitive (full Unicode case
mapping); the definitions below take it as an explicit parameter
`lower : String → String`.  This function is the ASCII fragment
(Lean's Char.toLower), used only to instantiate concrete all-ASCII
inputs, where it coincides with Python's str.lower. -/
def strLower (s : String) : String := ⟨s.data.map Char.toLower⟩

/-- Python `needle in hay` (contiguous substring test). -/
def isSubstr (needle hay : String) : Bool := decide (needle.data <:+: hay.data)

/-- Build a string back from a char buffer. -/
def chStr (buf : List Char) : String := ⟨buf⟩

/-- Python ",".join(row) (line 44 / line 62 always join with a comma). -/
def joinRow : List String → String
  | [] => ""
  | [f] => f
  | f :: g :: rest => f ++ "," ++ joinRow (g :: rest)

/-- Row serialization of addTopRow (line 44): ",".join(row) + ",\n". -/
def serializeTop (row : List String) : String := joinRow row ++ ",\n"

/-- Row serialization of addEntry (line 62): ",".join(row) + ",\n". -/
def serializeEntry (row : List String) : String := joinRow row ++ ",\n"

/-- addTopRow (lines 41-51): write the new serialized row followed by the
previous file content. -/
def addTopRow (row : List String) (content : String) : String :=
  serializeTop row ++ content

/-- addEntry (lines 53-80): if the file is non-empty and its last byte is
not a newline, insert one, then append the serialized row.  (For the
newline test, the last UTF-8 byte equals 0x0A exactly when the last
character is a newline, so the byte probe is modelled on characters.) -/
def addEntry (row : List String) (content : String) : String :=
  if content = "" then content ++ serializeEntry row
  else if content.data.getLast? = some '\n' then content ++ serializeEntry row
  else content ++ "\n" ++ serializeEntry row

/-- Modelled text of an operating-system error raised by the file layer. -/
def ioErrorMsg : String := "OSError"

/-- addTopRow with the possibility of an I/O failure.  The Python body of
addTopRow has no try/except, so a failing read_text/write_text propagates
to the caller; that propagation is modelled as Except.error. -/
def addTopRowExc (ok : Bool) (row : List String) (content : String) :
    Except String String :=
  if ok then Except.ok (addTopRow row content) else Except.error ioErrorMsg

/-- addEntry with the possibility of an I/O failure.  The Python body of
addEntry has no try/except, so a failing open/write propagates. -/
def addEntryExc (ok : Bool) (row : List String) (content : String) :
    Except String String :=
  if ok then Except.ok (addEntry row content) else Except.error ioErrorMsg

/-- Number of newline-terminated lines of a file (every row the store
writes is newline-terminated, so lines are counted by their newlines). -/
def lineCount (s : String) : Nat := s.data.count '\n'

/- ----------------------------------------------------------------
   Python csv.reader (delimiter d, quotechar '"', doublequote,
   skipinitialspace=True, non-strict), embedded as a character-level
   state machine.  searchRows opens the file with newline="" (line
   124), which enables universal-newline LINE SPLITTING with the
   endings returned untranslated: the reader is handed lines ending in
   LF, a bare CR, or CRLF.  A bare CR therefore always terminates its
   line, so after a CR the reader sees either the end of the line
   (record emitted) or the start of the next line (a fresh record); it
   never sees a CR followed by an ordinary character inside one line,
   and never raises csv.Error during iteration.  On the flat character
   stream this means: eatCrnl absorbs an LF that completes a CRLF, and
   on any other character it emits the pending record and reprocesses
   that character at record start.
   ---------------------------------------------------------------- -/

inductive PState where
  | startRecord : PState
  | startField : List String → PState
  | inField : List String → List Char → PState
  | inQuoted : List String → List Char → PState
  | quoteInQuoted : List String → List Char → PState
  | eatCrnl : List String → PState
deriving Repr, DecidableEq

structure PAcc where
  rows : List (List String)
  st : PState
deriving Repr, DecidableEq

/-- csv.reader START_FIELD: terminator, quote, initial space, delimiter,
ordinary character (in the reference order of the C implementation). -/
def fieldStart (d : Char) (a : PAcc) (fs : List String) (c : Char) : PAcc :=
  if c = '\n' then { a with rows := a.rows ++ [fs ++ [""]], st := .startRecord }
  else if c = '\r' then { a with st := .eatCrnl (fs ++ [""]) }
  else if c = '"' then { a with st := .inQuoted fs [] }
  else if c = ' ' then { a with st := .startField fs }
  else if c = d then { a with st := .startField (fs ++ [""]) }
  else { a with st := .inField fs [c] }

/-- One character of csv.reader.  In the eatCrnl state an LF completes
a CRLF ending; any other character means the bare CR ended its line, so
the pending record is emitted and the character is reprocessed at
record start (as the first character of the next line). -/
def pstepChar (d : Char) (a : PAcc) (c : Char) : PAcc :=
  match a.st with
  | .startRecord =>
      if c = '\n' then { a with rows := a.rows ++ [[]] }
      else if c = '\r' then { a with st := .eatCrnl [] }
      else fieldStart d a [] c
  | .startField fs => fieldStart d a fs c
  | .inField fs buf =>
      if c = '\n' then
        { a with rows := a.rows ++ [fs ++ [chStr buf]], st := .startRecord }
      else if c = '\r' then { a with st := .eatCrnl (fs ++ [chStr buf]) }
      else if c = d then { a with st := .startField (fs ++ [chStr buf]) }
      else { a with st := .inField fs (buf ++ [c]) }
  | .inQuoted fs buf =>
      if c = '"' then { a with st := .quoteInQuoted fs buf }
      else { a with st := .inQuoted fs (buf ++ [c]) }
  | .quoteInQuoted fs buf =>
      if c = '"' then { a with st := .inQuoted fs (buf ++ ['"']) }
      else if c = d then { a with st := .startField (fs ++ [chStr buf]) }
      else if c = '\n' then
        { a with rows := a.rows ++ [fs ++ [chStr buf]], st := .startRecord }
      else if c = '\r' then { a with st := .eatCrnl (fs ++ [chStr buf]) }
      else { a with st := .inField fs (buf ++ [c]) }
  | .eatCrnl fs =>
      if c = '\n' then { a with rows := a.rows ++ [fs], st := .startRecord }
      else if c = '\r' then
        { a with rows := a.rows ++ [fs], st := .eatCrnl [] }
      else fieldStart d { a with rows := a.rows ++ [fs], st := .startRecord } [] c

/-- End of input: flush the pending record (the reader saves a pending
field even for an unterminated quoted field, non-strict). -/
def pfinish (a : PAcc) : PAcc :=
  match a.st with
  | .startRecord => a
  | .startField fs => { a with rows := a.rows ++ [fs ++ [""]], st := .startRecord }
  | .inField fs buf => { a with rows := a.rows ++ [fs ++ [chStr buf]], st := .startRecord }
  | .inQuoted fs buf => { a with rows := a.rows ++ [fs ++ [chStr buf]], st := .startRecord }
  | .quoteInQuoted fs buf => { a with rows := a.rows ++ [fs ++ [chStr buf]], st := .startRecord }
  | .eatCrnl fs => { a with rows := a.rows ++ [fs], st := .startRecord }

/-- Parse a whole file: the rows csv.reader yields, paired with whether
the iteration raised csv.Error.  Under the newline="" line splitting a
bare CR always ends its line, so the non-strict reader never raises
during iteration: the flag is constantly false.  It is kept so that
searchRows can mirror the except-branch of the source, which remains
reachable only through the open failure modelled by openOk. -/
def parseCsv (d : Char) (s : String) : List (List String) × Bool :=
  let a := pfinish (List.foldl (pstepChar d) ⟨[], .startRecord⟩ s.data)
  (a.rows, false)

/-- A character with no special role for the comma-delimited reader in
mid-field position: not a newline, a carriage return, or a comma. -/
def plainComma (c : Char) : Prop := c ≠ '\n' ∧ c ≠ '\r' ∧ c ≠ ','

instance (c : Char) : Decidable (plainComma c) := by
  unfold plainComma
  infer_instance

/-- A field the plain (unquoted) serializer keeps intact under
csv.reader: every character is plain and the field does not begin with
the quote character or a space (skipinitialspace would eat it). -/
def cleanFieldComma (f : String) : Prop :=
  (∀ c ∈ f.data, plainComma c)
  ∧ f.data.head? ≠ some '"' ∧ f.data.head? ≠ some ' '

instance (f : String) : Decidable (cleanFieldComma f) := by
  unfold cleanFieldComma
  infer_instance

/- ----------------------------------------------------------------
   searchRows (lines 88-177).
   ---------------------------------------------------------------- -/

/-- The trailing-empty-field trimming loop (lines 148-150):
while row and row[-1] == "": row.pop(). -/
def trimTrailing (r : List String) : List String :=
  (r.reverse.dropWhile (fun f => f == "")).reverse

/-- Case normalization (lines 141, 156-157); `lower` is str.lower. -/
def normCase (lower : String → String) (caseSensitive : Bool) (s : String) :
    String :=
  if caseSensitive then s else lower s

/-- The per-row match of the loop body (lines 153-169): candidate fields
are the whole row, or the single field at `column` when in bounds; a row
matches when some candidate equals (exact) or contains (substring) the
pre-normalized query. -/
def matchRow (lower : String → String) (q : String)
    (exact caseSensitive : Bool) (column : Option Nat)
    (r : List String) : Bool :=
  let fields := match column with
    | none => r
    | some c => (r.get? c).toList
  fields.any fun f =>
    let t := normCase lower caseSensitive f
    if exact then t == q else isSubstr q t

/-- One iteration of the searchRows loop (lines 143-172): skip an empty
row, trim trailing empty fields (when enabled), append the (trimmed) row
to the results when it matches. -/
def scanStep (lower : String → String) (q : String)
    (exact caseSensitive trim : Bool) (column : Option Nat)
    (acc : List (List String)) (r : List String) : List (List String) :=
  if r = [] then acc
  else
    let r2 := if trim then trimTrailing r else r
    if matchRow lower q exact caseSensitive column r2 then acc ++ [r2] else acc

/-- The scan loop of searchRows over already-parsed rows. -/
def scanRows (lower : String → String) (q : String)
    (exact caseSensitive trim : Bool) (column : Option Nat)
    (rows : List (List String)) : List (List String) :=
  List.foldl (scanStep lower q exact caseSensitive trim column) [] rows

structure SearchOpts where
  exact : Bool := false
  column : Option Nat := none
  case_sensitive : Bool := false
  column_name : Option String := none
  has_header : Bool := false
  trim_trailing_empty : Bool := true
deriving Repr

/-- Diagnostic recorded by _saveError when the file is missing (line 120). -/
def errNoFileMsg : String := "Archivo no encontrado para búsqueda"

/-- Diagnostic recorded by _saveError from the except-branch (line 175). -/
def errScanMsg : String := "Error en searchRows"

/-- Diagnostic recorded when a header name is unresolved (line 137). -/
def errNoColumnMsg (name : String) : String := "Columna no encontrada: " ++ name

/-- searchRows (lines 88-177).  `lower` is the str.lower collaborator,
`fileExists` models Path.exists, `openOk` models whether opening the
file raises (the csv iteration itself never does, see parseCsv).  The
result is (matched rows, diagnostics reported via _saveError); the
Python column index is a 0-based natural number, as in the spec. -/
def searchRows (lower : String → String) (fileExists openOk : Bool)
    (content : String) (query : String) (opts : SearchOpts) (delim : Char) :
    List (List String) × List String :=
  if fileExists = false then ([], [errNoFileMsg])
  else if openOk = false then ([], [errScanMsg])
  else
    let p := parseCsv delim content
    let q := normCase lower opts.case_sensitive query
    let ediag : List String := if p.2 then [errScanMsg] else []
    if opts.has_header then
      match p.1 with
      | [] => ([], ediag)
      | header :: rest =>
        match opts.column_name with
        | none =>
            (scanRows lower q opts.exact opts.case_sensitive
              opts.trim_trailing_empty opts.column rest, ediag)
        | some nm =>
          match List.findIdx? (fun h => h == nm) header with
          | none => ([], [errNoColumnMsg nm])
          | some idx =>
              (scanRows lower q opts.exact opts.case_sensitive
                opts.trim_trailing_empty (some idx) rest, ediag)
    else
      (scanRows lower q opts.exact opts.case_sensitive
        opts.trim_trailing_empty opts.column p.1, ediag)

/- ----------------------------------------------------------------
   Spec-side search description (for the refinement claim P4).
   Written from the specification text, to be compared with the
   code-derived searchRows: "select the candidate field set — either
   the single field at `column` (empty set if out of bounds) or all
   fields; normalize case; a row matches if any candidate field equals
   (exact) or contains as substring the normalized query; matching
   rows are returned in file order as post-trim field sequences."
   ---------------------------------------------------------------- -/

/-- Spec wording of one row's match test. -/
def rowMatchesSpec (lower : String → String) (query : String)
    (exact caseSensitive : Bool) (column : Option Nat)
    (r : List String) : Bool :=
  let cand := match column with
    | none => r
    | some c => (r.get? c).toList
  cand.any fun f =>
    if exact then
      normCase lower caseSensitive f == normCase lower caseSensitive query
    else
      isSubstr (normCase lower caseSensitive query)
        (normCase lower caseSensitive f)

/-- Spec wording of the whole search (default trimming): the trimmed
parsed rows that match, in file order. -/
def searchSpec (lower : String → String) (d : Char) (content query : String)
    (exact caseSensitive : Bool) (column : Option Nat) :
    List (List String) :=
  ((parseCsv d content).1.map trimTrailing).filter
    (fun r => rowMatchesSpec lower query exact caseSensitive column r)

/- ----------------------------------------------------------------
   Logger (lines 202-271).  Console output is returned as the list of
   lines the logger prints; the store's file content is threaded
   explicitly; the timestamp provider (FechaHora) is a parameter.
   ---------------------------------------------------------------- -/

def ansiRed : String := "\x1b[91m"
def ansiYellow : String := "\x1b[93m"
def ansiCyan : String := "\x1b[96m"
def ansiGreen : String := "\x1b[92m"
def ansiGray : String := "\x1b[90m"
def ansiReset : String := "\x1b[0m"
def ansiBlack : String := "\x1b[30m"

structure LoggerState where
  /-- _doc : Optional[CsvManager]; only presence matters here. -/
  doc : Option Unit
  /-- _debug_enabled flag. -/
  debug_enabled : Bool
  /-- _disposed flag. -/
  disposed : Bool
deriving Repr, DecidableEq

namespace Logger

/-- Logger.__init__ (lines 211-214). -/
def init (debug_enabled : Bool) : LoggerState := ⟨some (), debug_enabled, false⟩

/-- The colored console line printed by _save (line 261). -/
def fmtLine (color level text : String) : String :=
  color ++ "[" ++ level ++ "] " ++ text ++ ansiReset

/-- The red console warning printed when addTopRow raises inside _save
(line 271; the interpolated exception text is elided). -/
def saveFailLine (level : String) : String :=
  ansiRed ++ "[ERROR] Desde " ++ level ++
    "Log(): No se pudo guardar el registro en archivo." ++ ansiReset

/-- Logger._save (lines 259-271): print the colored line; then, unless
disposed or detached, prepend (formatted text, timestamp) via addTopRow,
catching any store exception as a console-only warning.  `writeOk` models
whether the store write raises.  Returns (console lines, file content). -/
def save (s : LoggerState) (level text color stamp : String) (writeOk : Bool)
    (file : String) : List String × String :=
  let line := fmtLine color level text
  if s.disposed ∨ s.doc = none then ([line], file)
  else if writeOk then
    ([line], addTopRow ["[" ++ level ++ "] " ++ text, stamp] file)
  else ([line, saveFailLine level], file)

/-- Logger.newLog (lines 217-218). -/
def newLog (s : LoggerState) (text stamp : String) (writeOk : Bool)
    (file : String) : List String × String :=
  save s "Log" text ansiBlack stamp writeOk file

/-- Logger.error (lines 220-221). -/
def error (s : LoggerState) (text stamp : String) (writeOk : Bool)
    (file : String) : List String × String :=
  save s "ERROR" text ansiRed stamp writeOk file

/-- Logger.warning (lines 223-224). -/
def warning (s : LoggerState) (text stamp : String) (writeOk : Bool)
    (file : String) : List String × String :=
  save s "WARNING" text ansiYellow stamp writeOk file

/-- Logger.info (lines 226-227). -/
def info (s : LoggerState) (text stamp : String) (writeOk : Bool)
    (file : String) : List String × String :=
  save s "INFO" text ansiCyan stamp writeOk file

/-- Logger.success (lines 229-230). -/
def success (s : LoggerState) (text stamp : String) (writeOk : Bool)
    (file : String) : List String × String :=
  save s "SUCCESS" text ansiGreen stamp writeOk file

/-- Logger.debug (lines 232-235): gated by _debug_enabled. -/
def debug (s : LoggerState) (text stamp : String) (writeOk : Bool)
    (file : String) : List String × String :=
  if s.debug_enabled = false then ([], file)
  else save s "DEBUG" text ansiGray stamp writeOk file

/-- Logger.set_debug (lines 237-239). -/
def set_debug (s : LoggerState) (enabled : Bool) : LoggerState :=
  { s with debug_enabled := enabled }

/-- Logger.dispose (lines 241-248): mark disposed, release the manager. -/
def dispose (s : LoggerState) : LoggerState :=
  { s with disposed := true, doc := none }

/-- Logger.__exit__ (lines 254-256): every exit path calls dispose. -/
def exitScope (s : LoggerState) : LoggerState := dispose s

end Logger

/- ================================================================
   Theorems.
   ================================================================ -/

/-- C6: missing-file search (P6): for every query and option
combination, search on a missing file raises nothing, reports the
file-missing diagnostic, and returns the empty sequence. -/
theorem c6_missing_file (lower : String → String) (openOk : Bool)
    (content query : String) (opts : SearchOpts) (d : Char) :
    searchRows lower false openOk content query opts d
      = ([], [errNoFileMsg]) := rfl

/-- C9 (implicit): with has_header = false, a supplied column_name is
silently ignored — the result (rows and diagnostics) is identical to the
same search with column_name unset. -/
theorem c9_column_name_ignored (lower : String → String) (fe ok : Bool)
    (content query : String) (exact cs trim : Bool) (col : Option Nat)
    (cn : Option String) (d : Char) :
    searchRows lower fe ok content query ⟨exact, col, cs, cn, false, trim⟩ d
      = searchRows lower fe ok content query
          ⟨exact, col, cs, none, false, trim⟩ d := rfl

/-- C2 counterexample: the claim "no RecordStore operation ever raises"
fails at a concrete input: an I/O failure during addTopRow propagates to
the caller (the Python body has no try/except). -/
theorem c2_counterexample :
    addTopRowExc false ["[INFO] Servicio iniciado"] "" = Except.error ioErrorMsg := rfl

/-- C2 amended: searchRows never raises — a missing file, a failing
open, or a parse error degrade to a diagnostic plus an empty or partial
result — but addTopRow and addEntry contain no exception handling, so an
I/O failure there propagates to the caller; it is the Logger wrapper
that catches the store's exception and turns it into a console warning. -/
theorem c2_error_policy :
    (∀ (row : List String) (content : String),
        addTopRowExc false row content = Except.error ioErrorMsg)
    ∧ (∀ (row : List String) (content : String),
        addEntryExc false row content = Except.error ioErrorMsg)
    ∧ (∀ (row : List String) (content : String),
        addTopRowExc true row content = Except.ok (addTopRow row content))
    ∧ (∀ (row : List String) (content : String),
        addEntryExc true row content = Except.ok (addEntry row content))
    ∧ (∀ (lower : String → String) (ok : Bool) (content q : String)
          (opts : SearchOpts) (d : Char),
        searchRows lower false ok content q opts d = ([], [errNoFileMsg]))
    ∧ (∀ (lower : String → String) (content q : String) (opts : SearchOpts)
          (d : Char),
        searchRows lower true false content q opts d = ([], [errScanMsg]))
    ∧ (∀ (dbg : Bool) (level text color stamp file : String),
        Logger.save ⟨some (), dbg, false⟩ level text color stamp false file
          = ([Logger.fmtLine color level text, Logger.saveFailLine level], file)) :=
  ⟨fun _ _ => rfl, fun _ _ => rfl, fun _ _ => rfl, fun _ _ => rfl,
   fun _ _ _ _ _ _ => rfl, fun _ _ _ _ _ => rfl, fun _ _ _ _ _ _ => rfl⟩

/-- After dispose, _save prints the console line but leaves the file
untouched, for every level / failure mode. -/
theorem save_disposed (s : LoggerState) (level text color stamp : String)
    (w : Bool) (file : String) :
    Logger.save (Logger.dispose s) level text color stamp w file
      = ([Logger.fmtLine color level text], file) := by
  simp [Logger.save, Logger.dispose]

/-- C7: dispose is a one-way, idempotent transition that releases the
store reference; leaving the context-manager scope calls dispose; and
after dispose every log call on every level still prints its console
line but never touches the backing file. -/
theorem c7_dispose_lifecycle :
    (∀ s : LoggerState, Logger.dispose (Logger.dispose s) = Logger.dispose s)
    ∧ (∀ s : LoggerState,
        (Logger.dispose s).disposed = true ∧ (Logger.dispose s).doc = none)
    ∧ (∀ s : LoggerState, Logger.exitScope s = Logger.dispose s)
    ∧ (∀ (s : LoggerState) (b : Bool),
        (Logger.set_debug s b).disposed = s.disposed)
    ∧ (∀ (s : LoggerState) (text stamp : String) (w : Bool) (file : String),
        Logger.newLog (Logger.dispose s) text stamp w file
            = ([Logger.fmtLine ansiBlack "Log" text], file)
        ∧ Logger.error (Logger.dispose s) text stamp w file
            = ([Logger.fmtLine ansiRed "ERROR" text], file)
        ∧ Logger.warning (Logger.dispose s) text stamp w file
            = ([Logger.fmtLine ansiYellow "WARNING" text], file)
        ∧ Logger.info (Logger.dispose s) text stamp w file
            = ([Logger.fmtLine ansiCyan "INFO" text], file)
        ∧ Logger.success (Logger.dispose s) text stamp w file
            = ([Logger.fmtLine ansiGreen "SUCCESS" text], file)
        ∧ Logger.debug (Logger.dispose s) text stamp w file
            = (if s.debug_enabled then [Logger.fmtLine ansiGray "DEBUG" text]
               else [], file)) := by
  refine ⟨fun s => rfl, fun s => ⟨rfl, rfl⟩, fun s => rfl, fun s b => rfl,
    fun s text stamp w file => ?_⟩
  refine ⟨save_disposed .., save_disposed .., save_disposed .., save_disposed ..,
    save_disposed .., ?_⟩
  cases hd : s.debug_enabled <;>
    simp [Logger.debug, Logger.dispose, hd, Logger.save]

/-- The level line is always the first console line _save emits,
whatever the logger state and whatever the persistence outcome. -/
theorem save_head (s : LoggerState) (level text color stamp : String)
    (w : Bool) (file : String) :
    (Logger.save s level text color stamp w file).1.head?
      = some (Logger.fmtLine color level text) := by
  unfold Logger.save
  split
  · rfl
  · split <;> rfl

/-- C8: every newLog/error/warning/info/success call prints its
"[LEVEL] text" console line first, regardless of disposed state or
persistence failure; debug prints nothing and persists nothing while the
gate is down (its default), and once the gate is set via set_debug it
behaves exactly like the other levels. -/
theorem c8_console_output :
    (∀ (s : LoggerState) (text stamp : String) (w : Bool) (file : String),
        (Logger.newLog s text stamp w file).1.head?
            = some (Logger.fmtLine ansiBlack "Log" text)
        ∧ (Logger.error s text stamp w file).1.head?
            = some (Logger.fmtLine ansiRed "ERROR" text)
        ∧ (Logger.warning s text stamp w file).1.head?
            = some (Logger.fmtLine ansiYellow "WARNING" text)
        ∧ (Logger.info s text stamp w file).1.head?
            = some (Logger.fmtLine ansiCyan "INFO" text)
        ∧ (Logger.success s text stamp w file).1.head?
            = some (Logger.fmtLine ansiGreen "SUCCESS" text))
    ∧ (∀ (dc : Option Unit) (dis : Bool) (text stamp : String) (w : Bool)
          (file : String),
        Logger.debug ⟨dc, false, dis⟩ text stamp w file = ([], file))
    ∧ (∀ (dc : Option Unit) (dis : Bool) (text stamp : String) (w : Bool)
          (file : String),
        Logger.debug ⟨dc, true, dis⟩ text stamp w file
          = Logger.save ⟨dc, true, dis⟩ "DEBUG" text ansiGray stamp w file)
    ∧ (∀ (s : LoggerState) (text stamp : String) (w : Bool) (file : String),
        Logger.debug (Logger.set_debug s true) text stamp w file
          = Logger.save (Logger.set_debug s true) "DEBUG" text ansiGray stamp
              w file) :=
  ⟨fun _ _ _ _ _ =>
    ⟨save_head .., save_head .., save_head .., save_head .., save_head ..⟩,
   fun _ _ _ _ _ _ => rfl, fun _ _ _ _ _ _ => rfl, fun _ _ _ _ _ => rfl⟩

/-- Trimming ignores any number of appended trailing empty fields. -/
theorem trimTrailing_append_replicate (xs : List String) (k : Nat) :
    trimTrailing (xs ++ List.replicate k "") = trimTrailing xs := by
  unfold trimTrailing
  rw [List.reverse_append, List.reverse_replicate]
  congr 1
  induction k with
  | zero => simp
  | succ n ih => simp [List.replicate_succ, ih]

/-- A row whose last field is non-empty (or an empty row) is left intact
by the trimming loop. -/
theorem trimTrailing_self (R : List String) (h : R.getLast? ≠ some "") :
    trimTrailing R = R := by
  unfold trimTrailing
  cases hR : R.reverse with
  | nil =>
    have h0 : R = [] := by simpa using congrArg List.reverse hR
    subst h0
    rfl
  | cons x xs =>
    have hx : R.getLast? = some x := by rw [← List.head?_reverse, hR]; rfl
    have hxne : ¬(x == "") = true := by
      intro hbeq
      exact h (by rw [hx, eq_of_beq hbeq])
    have hdw : List.dropWhile (fun f => f == "") (x :: xs) = x :: xs := by
      rw [List.dropWhile_cons, if_neg hxne]
    rw [hdw, ← hR, List.reverse_reverse]

/-- C10 (implicit): the default trimming strips ALL trailing empty
fields, not only the one produced by the mandatory trailing delimiter:
trimming is invariant under appending any number of empty fields, a row
stored from ("a","","") is returned truncated to ["a"], and its trailing
empty fields can neither match a query nor be selected by column index. -/
theorem c10_trim_all_trailing :
    (∀ (xs : List String) (k : Nat),
        trimTrailing (xs ++ List.replicate k "") = trimTrailing xs)
    ∧ (searchRows strLower true true (addTopRow ["a", "", ""] "") "a"
        ⟨false, none, false, none, false, true⟩ ',').1 = [["a"]]
    ∧ (searchRows strLower true true (addTopRow ["a", "", ""] "") ""
        ⟨true, some 1, false, none, false, true⟩ ',').1 = [] :=
  ⟨trimTrailing_append_replicate, by decide, by decide⟩

theorem lineCount_append (s t : String) :
    lineCount (s ++ t) = lineCount s + lineCount t := by
  simp [lineCount, String.data_append, List.count_append]

theorem lineCount_joinRow (r : List String)
    (h : ∀ f ∈ r, ('\n' : Char) ∉ f.data) : lineCount (joinRow r) = 0 := by
  induction r with
  | nil => rfl
  | cons f rest ih =>
    cases rest with
    | nil =>
      have hf : ('\n' : Char) ∉ f.data := h f (List.mem_cons_self _ _)
      simpa [joinRow, lineCount] using List.count_eq_zero.mpr hf
    | cons g rest2 =>
      have hf : ('\n' : Char) ∉ f.data := h f (List.mem_cons_self _ _)
      have hrest : ∀ f2 ∈ g :: rest2, ('\n' : Char) ∉ f2.data :=
        fun f2 h2 => h f2 (List.mem_cons_of_mem f h2)
      have : lineCount (joinRow (f :: g :: rest2))
          = lineCount f + lineCount "," + lineCount (joinRow (g :: rest2)) := by
        rw [show joinRow (f :: g :: rest2) = f ++ "," ++ joinRow (g :: rest2)
          from rfl, lineCount_append, lineCount_append]
      have hf0 : lineCount f = 0 := List.count_eq_zero.mpr hf
      rw [this, ih hrest, hf0]
      rfl

theorem lineCount_serializeEntry (r : List String)
    (h : ∀ f ∈ r, ('\n' : Char) ∉ f.data) : lineCount (serializeEntry r) = 1 := by
  unfold serializeEntry
  rw [lineCount_append, lineCount_joinRow r h]
  rfl

/-- Anything followed by a serialized row ends in a newline. -/
theorem append_serialize_last (s : String) (r : List String) :
    (s ++ serializeEntry r).data.getLast? = some '\n' := by
  rw [String.data_append]
  unfold serializeEntry
  rw [String.data_append]
  rw [show (",\n").data = [',', '\n'] from rfl]
  rw [show s.data ++ ((joinRow r).data ++ [',', '\n'])
        = (s.data ++ (joinRow r).data ++ [',']) ++ ['\n'] by simp]
  exact List.getLast?_concat _

/-- When the prior content is empty or newline-terminated, addEntry is a
plain append of the serialized row. -/
theorem addEntry_flat (row : List String) (content : String)
    (h : content = "" ∨ content.data.getLast? = some '\n') :
    addEntry row content = content ++ serializeEntry row := by
  unfold addEntry
  rcases h with h | h
  · simp [h]
  · by_cases hc : content = "" <;> simp [hc, h]

/-- Newline-free rows: each append adds exactly one line and restores
the newline-terminated invariant. -/
theorem foldl_addEntry_lines (rows : List (List String)) :
    ∀ content : String,
      (∀ r ∈ rows, ∀ f ∈ r, ('\n' : Char) ∉ f.data) →
      content = "" ∨ content.data.getLast? = some '\n' →
      lineCount (List.foldl (fun c r => addEntry r c) content rows)
          = lineCount content + rows.length
      ∧ (List.foldl (fun c r => addEntry r c) content rows = ""
          ∨ (List.foldl (fun c r => addEntry r c) content rows).data.getLast?
              = some '\n') := by
  induction rows with
  | nil => intro content _ hc; exact ⟨by simp, hc⟩
  | cons r rest ih =>
    intro content h hc
    have hr : ∀ f ∈ r, ('\n' : Char) ∉ f.data := h r (List.mem_cons_self _ _)
    have hrest : ∀ r2 ∈ rest, ∀ f ∈ r2, ('\n' : Char) ∉ f.data :=
      fun r2 h2 => h r2 (List.mem_cons_of_mem r h2)
    have e1 : addEntry r content = content ++ serializeEntry r :=
      addEntry_flat r content hc
    have last1 : (addEntry r content).data.getLast? = some '\n' := by
      rw [e1]; exact append_serialize_last content r
    have lc1 : lineCount (addEntry r content) = lineCount content + 1 := by
      rw [e1, lineCount_append, lineCount_serializeEntry r hr]
    have hmain := ih (addEntry r content) hrest (Or.inr last1)
    refine ⟨?_, by simpa using hmain.2⟩
    rw [List.foldl_cons, hmain.1, lc1, List.length_cons]
    omega

/-- C3 counterexample: the claim quantifies over every append sequence,
but a field containing a newline breaks the exactly-N-lines consequence:
one append of ("x\ny",) to an empty file produces a 2-line file. -/
theorem c3_counterexample :
    lineCount (List.foldl (fun c r => addEntry r c) "" [["x\ny"]]) = 2
    ∧ lineCount (List.foldl (fun c r => addEntry r c) "" [["x\ny"]])
        ≠ [(["x\ny"] : List String)].length := by decide

/-- C3 amended: provided no appended field contains a newline character,
N appends to an initially empty file produce exactly N lines; before
writing, a missing trailing newline is always inserted first; and
appending ("c",) to the content "a,b" yields "a,b\nc,\n". -/
theorem c3_append_safety (rows : List (List String))
    (h : ∀ r ∈ rows, ∀ f ∈ r, ('\n' : Char) ∉ f.data) :
    lineCount (List.foldl (fun c r => addEntry r c) "" rows) = rows.length
    ∧ (∀ (content : String) (row : List String),
        content ≠ "" → content.data.getLast? ≠ some '\n' →
        addEntry row content = content ++ "\n" ++ serializeEntry row)
    ∧ addEntry ["c"] "a,b" = "a,b\nc,\n" := by
  refine ⟨?_, ?_, by decide⟩
  · have h2 := (foldl_addEntry_lines rows "" h (Or.inl rfl)).1
    rw [h2]
    simp [lineCount]
  · intro content row h1 h2
    unfold addEntry
    rw [if_neg h1, if_neg h2]

/-- Witness for C3: two clean appends to an empty file give two lines. -/
theorem c3_append_safety_witness :
    lineCount (List.foldl (fun c r => addEntry r c) "" [["a"], ["b", "c"]]) = 2 :=
  (c3_append_safety [["a"], ["b", "c"]] (by decide)).1

/-- The scan loop body only ever appends to its accumulator. -/
theorem scanStep_acc (lower : String → String) (q : String)
    (exact cs trim : Bool) (col : Option Nat)
    (a : List (List String)) (r : List String) :
    scanStep lower q exact cs trim col a r
      = a ++ scanStep lower q exact cs trim col [] r := by
  unfold scanStep
  by_cases h1 : r = []
  · simp [h1]
  · by_cases h2 :
        matchRow lower q exact cs col (if trim then trimTrailing r else r) <;>
      simp [h1, h2]

/-- Hence the whole scan only ever appends to its accumulator. -/
theorem foldl_scanStep_acc (lower : String → String) (q : String)
    (exact cs trim : Bool) (col : Option Nat) (rows : List (List String)) :
    ∀ acc : List (List String),
      List.foldl (scanStep lower q exact cs trim col) acc rows
        = acc ++ List.foldl (scanStep lower q exact cs trim col) [] rows := by
  induction rows with
  | nil => intro acc; simp
  | cons r rest ih =>
    intro acc
    rw [List.foldl_cons, List.foldl_cons,
      ih (scanStep lower q exact cs trim col acc r),
      ih (scanStep lower q exact cs trim col [] r),
      scanStep_acc lower q exact cs trim col acc r]
    simp

/-- One step of the scan loop. -/
theorem scanRows_cons (lower : String → String) (q : String)
    (exact cs trim : Bool) (col : Option Nat)
    (r : List String) (rest : List (List String)) :
    scanRows lower q exact cs trim col (r :: rest)
      = scanStep lower q exact cs trim col [] r
        ++ scanRows lower q exact cs trim col rest := by
  unfold scanRows
  rw [List.foldl_cons, foldl_scanStep_acc]

/-- An empty row never matches: it offers no candidate field. -/
theorem rowMatchesSpec_nil (lower : String → String) (query : String)
    (exact cs : Bool) (col : Option Nat) :
    rowMatchesSpec lower query exact cs col [] = false := by
  cases col <;> rfl

/-- The scan loop with default trimming is exactly the spec's
trim-then-filter description, whatever the case-lowering primitive is. -/
theorem scanRows_eq_filter (lower : String → String) (query : String)
    (exact cs : Bool) (col : Option Nat) (rows : List (List String)) :
    scanRows lower (normCase lower cs query) exact cs true col rows
      = (rows.map trimTrailing).filter
          (fun r => rowMatchesSpec lower query exact cs col r) := by
  induction rows with
  | nil => rfl
  | cons r rest ih =>
    rw [scanRows_cons, ih, List.map_cons, List.filter_cons]
    have hmr : matchRow lower (normCase lower cs query) exact cs col
          (trimTrailing r)
        = rowMatchesSpec lower query exact cs col (trimTrailing r) := rfl
    by_cases h1 : r = []
    · subst h1
      simp [scanStep, trimTrailing, rowMatchesSpec_nil]
    · by_cases h2 :
          rowMatchesSpec lower query exact cs col (trimTrailing r) <;>
        simp [scanStep, h1, hmr, h2]

/-- fieldStart overwrites the state in every branch, so the incoming
state component is irrelevant. -/
theorem fieldStart_st (d : Char) (rs : List (List String)) (st1 st2 : PState)
    (fs : List String) (c : Char) :
    fieldStart d ⟨rs, st1⟩ fs c = fieldStart d ⟨rs, st2⟩ fs c := by
  unfold fieldStart
  split_ifs <;> rfl

/-- On a character that is not a line terminator, the reader behaves at
record start exactly as at the start of the first field. -/
theorem pstep_startRecord (rs : List (List String)) (c : Char)
    (h1 : c ≠ '\n') (h2 : c ≠ '\r') :
    pstepChar ',' ⟨rs, .startRecord⟩ c
      = pstepChar ',' ⟨rs, .startField []⟩ c := by
  simp only [pstepChar, if_neg h1, if_neg h2]
  exact fieldStart_st ',' rs .startRecord (.startField []) [] c

/-- Plain characters accumulate into the current unquoted field. -/
theorem foldl_inField (cs : List Char) :
    ∀ (rs : List (List String)) (fs : List String) (buf : List Char),
      (∀ c ∈ cs, plainComma c) →
      List.foldl (pstepChar ',') ⟨rs, .inField fs buf⟩ cs
        = ⟨rs, .inField fs (buf ++ cs)⟩ := by
  induction cs with
  | nil => intro rs fs buf _; simp
  | cons c cs ih =>
    intro rs fs buf h
    obtain ⟨h1, h2, h3⟩ := h c (List.mem_cons_self _ _)
    have hstep : pstepChar ',' ⟨rs, .inField fs buf⟩ c
        = ⟨rs, .inField fs (buf ++ [c])⟩ := by
      simp [pstepChar, h1, h2, h3]
    rw [List.foldl_cons, hstep,
      ih rs fs (buf ++ [c]) (fun c2 hc2 => h c2 (List.mem_cons_of_mem _ hc2))]
    simp

/-- A clean field followed by the delimiter is consumed into exactly one
saved field. -/
theorem foldl_field (f : String) (hf : cleanFieldComma f) :
    ∀ (rs : List (List String)) (fs : List String),
      List.foldl (pstepChar ',') ⟨rs, .startField fs⟩ (f.data ++ [','])
        = ⟨rs, .startField (fs ++ [f])⟩ := by
  intro rs fs
  obtain ⟨hall, hq, hs⟩ := hf
  cases hfd : f.data with
  | nil =>
    have hf0 : f = "" := by
      have h1 : f = chStr f.data := rfl
      rw [hfd] at h1
      exact h1
    rw [List.nil_append]
    have hstep : pstepChar ',' ⟨rs, .startField fs⟩ ','
        = ⟨rs, .startField (fs ++ [""])⟩ := rfl
    rw [List.foldl_cons, hstep, hf0]
    rfl
  | cons x xs =>
    have hxmem : x ∈ f.data := by rw [hfd]; exact List.mem_cons_self _ _
    obtain ⟨p1, p2, p3⟩ := hall x hxmem
    have hxq : x ≠ '"' := fun e => hq (by rw [hfd, e]; rfl)
    have hxs : x ≠ ' ' := fun e => hs (by rw [hfd, e]; rfl)
    have hstep : pstepChar ',' ⟨rs, .startField fs⟩ x
        = ⟨rs, .inField fs [x]⟩ := by
      simp [pstepChar, fieldStart, p1, p2, p3, hxq, hxs]
    have hxsall : ∀ c ∈ xs, plainComma c := by
      intro c hc
      exact hall c (by rw [hfd]; exact List.mem_cons_of_mem _ hc)
    rw [List.cons_append, List.foldl_cons, hstep, List.foldl_append,
      foldl_inField xs rs fs [x] hxsall]
    have hstep2 : pstepChar ',' ⟨rs, .inField fs ([x] ++ xs)⟩ ','
        = ⟨rs, .startField (fs ++ [chStr ([x] ++ xs)])⟩ := rfl
    rw [List.foldl_cons, hstep2]
    have hback : chStr ([x] ++ xs) = f := by
      rw [show ([x] ++ xs : List Char) = x :: xs from rfl, ← hfd]
      rfl
    rw [hback]
    rfl

/-- The same, starting from record start. -/
theorem foldl_field_fromStart (f : String) (hf : cleanFieldComma f)
    (rs : List (List String)) :
    List.foldl (pstepChar ',') ⟨rs, .startRecord⟩ (f.data ++ [','])
      = ⟨rs, .startField [f]⟩ := by
  cases hfd : f.data with
  | nil =>
    have hf0 : f = "" := by
      have h1 : f = chStr f.data := rfl
      rw [hfd] at h1
      exact h1
    rw [List.nil_append]
    have hstep : pstepChar ',' ⟨rs, .startRecord⟩ ','
        = ⟨rs, .startField [""]⟩ := rfl
    rw [List.foldl_cons, hstep, hf0]
    rfl
  | cons x xs =>
    have hxmem : x ∈ f.data := by rw [hfd]; exact List.mem_cons_self _ _
    obtain ⟨p1, p2, p3⟩ := hf.1 x hxmem
    rw [List.cons_append, List.foldl_cons,
      pstep_startRecord rs x p1 p2, ← List.foldl_cons, ← List.cons_append,
      ← hfd]
    have h2 := foldl_field f hf rs []
    rw [List.nil_append] at h2
    exact h2

/-- A whole clean non-empty row followed by one delimiter leaves the
reader about to start the trailing empty field, with the row's fields
saved in order. -/
theorem foldl_row (R : List String) :
    (∀ f ∈ R, cleanFieldComma f) → R ≠ [] →
    ∀ (rs : List (List String)) (fs : List String),
      List.foldl (pstepChar ',') ⟨rs, .startField fs⟩
          ((joinRow R).data ++ [','])
        = ⟨rs, .startField (fs ++ R)⟩ := by
  induction R with
  | nil => intro _ hne; exact absurd rfl hne
  | cons f rest ih =>
    intro hR _ rs fs
    cases rest with
    | nil => simpa using foldl_field f (hR f (List.mem_cons_self _ _)) rs fs
    | cons g rest2 =>
      have hjdata : (joinRow (f :: g :: rest2)).data ++ [',']
          = (f.data ++ [',']) ++ ((joinRow (g :: rest2)).data ++ [',']) := by
        rw [show joinRow (f :: g :: rest2) = f ++ "," ++ joinRow (g :: rest2)
          from rfl, String.data_append, String.data_append,
          show (",").data = [','] from rfl]
        simp
      rw [hjdata, List.foldl_append,
        foldl_field f (hR f (List.mem_cons_self _ _)) rs fs,
        ih (fun f2 h2 => hR f2 (List.mem_cons_of_mem _ h2))
          (List.cons_ne_nil _ _) rs (fs ++ [f])]
      simp

/-- The same, starting from record start. -/
theorem foldl_row_fromStart (R : List String)
    (hR : ∀ f ∈ R, cleanFieldComma f) (hne : R ≠ [])
    (rs : List (List String)) :
    List.foldl (pstepChar ',') ⟨rs, .startRecord⟩
        ((joinRow R).data ++ [','])
      = ⟨rs, .startField R⟩ := by
  cases R with
  | nil => exact absurd rfl hne
  | cons f rest =>
    cases rest with
    | nil =>
      simpa using foldl_field_fromStart f (hR f (List.mem_cons_self _ _)) rs
    | cons g rest2 =>
      have hjdata : (joinRow (f :: g :: rest2)).data ++ [',']
          = (f.data ++ [',']) ++ ((joinRow (g :: rest2)).data ++ [',']) := by
        rw [show joinRow (f :: g :: rest2) = f ++ "," ++ joinRow (g :: rest2)
          from rfl, String.data_append, String.data_append,
          show (",").data = [','] from rfl]
        simp
      rw [hjdata, List.foldl_append,
        foldl_field_fromStart f (hR f (List.mem_cons_self _ _)) rs,
        foldl_row (g :: rest2) (fun f2 h2 => hR f2 (List.mem_cons_of_mem _ h2))
          (List.cons_ne_nil _ _) rs [f]]
      rfl

/-- One reader step only ever appends to the emitted-rows list. -/
theorem pstep_rows (d : Char) (rs : List (List String)) (st : PState)
    (c : Char) :
    pstepChar d ⟨rs, st⟩ c
      = ⟨rs ++ (pstepChar d ⟨[], st⟩ c).rows,
         (pstepChar d ⟨[], st⟩ c).st⟩ := by
  cases st <;> simp only [pstepChar, fieldStart] <;> split_ifs <;> simp

/-- Hence a whole fold only ever appends to the emitted-rows list, and
the final state does not depend on rows already emitted. -/
theorem foldl_rows (d : Char) (cs : List Char) :
    ∀ (rs : List (List String)) (st : PState),
      List.foldl (pstepChar d) ⟨rs, st⟩ cs
        = ⟨rs ++ (List.foldl (pstepChar d) ⟨[], st⟩ cs).rows,
           (List.foldl (pstepChar d) ⟨[], st⟩ cs).st⟩ := by
  induction cs with
  | nil => intro rs st; simp
  | cons c cs ih =>
    intro rs st
    rcases hb : pstepChar d ⟨[], st⟩ c with ⟨r1, s1⟩
    rw [List.foldl_cons, List.foldl_cons, pstep_rows d rs st c, hb]
    dsimp only
    rw [ih (rs ++ r1) s1, ih r1 s1]
    simp

/-- pfinish also only appends to the emitted-rows list. -/
theorem pfinish_rows (rs : List (List String)) (st : PState) :
    pfinish ⟨rs, st⟩
      = ⟨rs ++ (pfinish ⟨[], st⟩).rows, (pfinish ⟨[], st⟩).st⟩ := by
  cases st <;> simp [pfinish]

end TerminalTools
